import Mathlib

/-!
Shallow embedding of src/Assignment1/checker.py.

The checker builds Z3 constraint systems over per-timestep integer and
boolean variables, pins every variable to a recorded trace through equality
constraints, and asks for satisfiability.  Here the Z3 variable store is a
structure of valuation functions (WMAssign).  Each Python function is split
into two parts: the constraint set it builds, expressed as a predicate on
WMAssign, and a boolean recording whether the Python call runs to
completion (out-of-range list indexing in the function bodies raises an
uncaught IndexError; such crashes are modelled by the ok booleans being
false).  Satisfiability of a built system is the existence of a WMAssign
meeting every constraint; for these systems Z3 decides linear integer
arithmetic, so sat corresponds to that existence and unsat to its negation.
-/

/-- Valuation of the Z3 variables declared by init_environment: agent
row/column per timestep, target rows/columns and distance variables per
slot and timestep (only slots 0, 1, 2 are ever constrained), and the four
direction booleans per timestep. -/
structure WMAssign where
  arow : Nat → Int
  acol : Nat → Int
  trow : Nat → Nat → Int
  tcol : Nat → Nat → Int
  drow : Nat → Nat → Int
  dcol : Nat → Nat → Int
  north : Nat → Bool
  east : Nat → Bool
  south : Nat → Bool
  west : Nat → Bool

/-- Assignment whose distance variables are set to target minus agent, the
unique values the delta constraints of init_environment admit once the
position variables are fixed. -/
def mkAssign (ar ac : Nat → Int) (tr tc : Nat → Nat → Int)
    (n e s w : Nat → Bool) : WMAssign :=
  { arow := ar, acol := ac, trow := tr, tcol := tc,
    drow := fun i t => tr i t - ar t, dcol := fun i t => tc i t - ac t,
    north := n, east := e, south := s, west := w }

/-- Agent row recorded at timestep t (agent_position_list[t][0]). -/
def agR (ag : List (Int × Int)) (t : Nat) : Int := (ag.getD t (0, 0)).1

/-- Agent column recorded at timestep t (agent_position_list[t][1]). -/
def agC (ag : List (Int × Int)) (t : Nat) : Int := (ag.getD t (0, 0)).2

/-- Row of target slot i recorded at timestep t (target_position_list[t][i][0]). -/
def tgR (tg : List (List (Int × Int))) (i t : Nat) : Int :=
  ((tg.getD t []).getD i (0, 0)).1

/-- Column of target slot i recorded at timestep t (target_position_list[t][i][1]). -/
def tgC (tg : List (List (Int × Int))) (i t : Nat) : Int :=
  ((tg.getD t []).getD i (0, 0)).2

/-- Action code recorded at timestep t (action_list[t]); 0 north, 1 east,
2 south, 3 west.  The default 5 matches no direction, so it only matters
at indices where the Python code would have crashed instead of reading. -/
def acG (ac : List Nat) (t : Nat) : Nat := ac.getD t 5

/-- Grid-bound constraints of init_environment: every target and agent
coordinate at every timestep is below grid_size and at least 0. -/
def inBoundsC (T : Nat) (N : Int) (a : WMAssign) : Prop :=
  ∀ t, t < T →
    ((∀ i, i < 3 →
      (a.trow i t < N ∧ 0 ≤ a.trow i t ∧ a.tcol i t < N ∧ 0 ≤ a.tcol i t)) ∧
      a.arow t < N ∧ 0 ≤ a.arow t ∧ a.acol t < N ∧ 0 ≤ a.acol t)

/-- Capture clause of init_environment: if the agent was at target slot i's
position, then not both of the slot's coordinates change over the next
step; in the other case z3 If yields True, so no constraint.  The source
loops t over range(1, timesteps) relating t-1 to t; here s runs over
range(timesteps - 1) relating s to s+1, the same pairs. -/
def captureC (T : Nat) (a : WMAssign) : Prop :=
  ∀ s, s < T - 1 → ∀ i, i < 3 →
    ((a.trow i s = a.arow s ∧ a.tcol i s = a.acol s) →
      ¬(a.trow i (s+1) ≠ a.trow i s ∧ a.tcol i (s+1) ≠ a.tcol i s))

/-- Pairwise target distinctness at every timestep. -/
def distinctC (T : Nat) (a : WMAssign) : Prop :=
  ∀ t, t < T → ∀ i, i < 3 → ∀ j, j < i →
    ¬(a.trow i t = a.trow j t ∧ a.tcol i t = a.tcol j t)

/-- Distance variable definitions: delta equals target minus agent, per
slot, axis and timestep. -/
def deltaC (T : Nat) (a : WMAssign) : Prop :=
  ∀ t, t < T → ∀ i, i < 3 →
    (a.drow i t = a.trow i t - a.arow t ∧ a.dcol i t = a.tcol i t - a.acol t)

/-- Movement equations of init_environment, with the index shift of
captureC: z3 If(north, -1, If(south, 1, False)) gives north precedence
over south (False coerces to 0), and likewise east precedence over
west. -/
def moveC (T : Nat) (a : WMAssign) : Prop :=
  ∀ s, s < T - 1 →
    (a.arow (s+1) = a.arow s +
      (if a.north s = true then -1 else if a.south s = true then 1 else 0) ∧
     a.acol (s+1) = a.acol s +
      (if a.east s = true then 1 else if a.west s = true then -1 else 0))

/-- The constraint set built by init_environment(timesteps, grid_size), as
a predicate on an assignment of the Z3 variables: the five constraint
families added by the source, in source order. -/
def init_environment (T : Nat) (N : Int) (a : WMAssign) : Prop :=
  inBoundsC T N a ∧ captureC T a ∧ distinctC T a ∧ deltaC T a ∧ moveC T a

/-- The trace-binding equalities that check_run, find_loop,
find_efficient_path and closest_target all add verbatim: the loop runs over
range(len(agent_position_list)) and pins agent position, the three target
positions, and the four direction booleans (north iff action == 0, east iff
1, south iff 2, west iff 3) at each visited timestep. -/
def bindRun (ag : List (Int × Int)) (tg : List (List (Int × Int)))
    (ac : List Nat) (a : WMAssign) : Prop :=
  ∀ t, t < ag.length →
    (a.arow t = agR ag t ∧ a.acol t = agC ag t ∧
     (∀ i, i < 3 → a.trow i t = tgR tg i t ∧ a.tcol i t = tgC tg i t) ∧
     a.north t = (acG ac t == 0) ∧ a.east t = (acG ac t == 1) ∧
     a.south t = (acG ac t == 2) ∧ a.west t = (acG ac t == 3))

/-- The canonical assignment a recorded trace induces: every position and
direction variable reads the trace, and the distance variables take the
unique values the delta constraints allow. -/
def traceAssign (ag : List (Int × Int)) (tg : List (List (Int × Int)))
    (ac : List Nat) : WMAssign :=
  mkAssign (agR ag) (agC ag) (tgR tg) (tgC tg)
    (fun t => acG ac t == 0) (fun t => acG ac t == 1)
    (fun t => acG ac t == 2) (fun t => acG ac t == 3)

/-- A well-shaped trace: agent, action and goal sequences of one common
length, and exactly 3 goal slots at every timestep. -/
def Shaped (ag : List (Int × Int)) (tg : List (List (Int × Int)))
    (ac : List Nat) : Prop :=
  ag.length = ac.length ∧ tg.length = ac.length ∧
  ∀ t, t < ac.length → (tg.getD t []).length = 3

/-- Whether the shared trace-binding loop completes without an IndexError:
iteration t (for t < len(agent_position_list)) indexes the Z3 variable
lists of length len(action_list) at t, target_position_list[t], and its
first three entries. -/
def bind_ok (ag : List (Int × Int)) (tg : List (List (Int × Int)))
    (ac : List Nat) : Bool :=
  decide (∀ t, t < ag.length →
    (t < ac.length ∧ t < tg.length ∧ 3 ≤ (tg.getD t []).length))

/-- Whether the goal-change scan of find_efficient_path and closest_target
completes without an IndexError: iteration t (for t < len(action_list) - 1)
indexes target_position_list at t and t+1 and reads three slots of each. -/
def scan_ok (tg : List (List (Int × Int))) (ac : List Nat) : Bool :=
  decide (∀ t, t < ac.length - 1 →
    (t + 1 < tg.length ∧ 3 ≤ (tg.getD t []).length ∧
     3 ≤ (tg.getD (t+1) []).length))

/-- Slot i's recorded position differs between timesteps t and t+1 (the
scan condition of find_efficient_path and closest_target). -/
def changedAt (tg : List (List (Int × Int))) (i t : Nat) : Bool :=
  decide (¬(tgR tg i t = tgR tg i (t+1) ∧ tgC tg i t = tgC tg i (t+1)))

/-- Change events detected at step t, in slot order: (slot, t+1) for each
slot whose position differs between t and t+1. -/
def eventsAt (tg : List (List (Int × Int))) (t : Nat) : List (Nat × Nat) :=
  (List.range 3).filterMap
    (fun i => if changedAt tg i t then some (i, t + 1) else none)

/-- Change events with scan step below n, in scan order (t ascending, slot
ascending within a step). -/
def eventsUpTo (tg : List (List (Int × Int))) : Nat → List (Nat × Nat)
  | 0 => []
  | n + 1 => eventsUpTo tg n ++ eventsAt tg n

/-- The chosen_targets list both find_efficient_path and closest_target
compute over a horizon of T timesteps: every (slot, effective timestep)
change event, the scan running t over range(T - 1). -/
def events (tg : List (List (Int × Int))) (T : Nat) : List (Nat × Nat) :=
  eventsUpTo tg (T - 1)

/-- Effective timestep of the last change event (0 for no events). -/
def arrLast : List (Nat × Nat) → Nat
  | [] => 0
  | [e] => e.2
  | _ :: e :: es => arrLast (e :: es)

/-- The pursuit target active at timestep t: the slot of the first change
event whose effective timestep lies strictly beyond t. -/
def activeIn : List (Nat × Nat) → Nat → Option Nat
  | [], _ => none
  | e :: es, t => if t < e.2 then some e.1 else activeIn es t

/-- The effective timesteps of the event list are strictly increasing,
that is, no two goal slots change over the same step. -/
def strictArrs : List (Nat × Nat) → Bool
  | [] => true
  | [_] => true
  | e :: f :: es => decide (e.2 < f.2) && strictArrs (f :: es)

/-- One step of the constraint loop of find_efficient_path, which walks the
event list with an iterator: at each timestep t it first advances to the
next event if t equals the current event's effective timestep — breaking
out of the loop when the events are exhausted — and then emits the pair
(t, slot of the current event), the timestep-target pair it constrains.
cur is the current event, rest the events after it, and fuel the number of
loop iterations left (the top-level call gives fuel T, matching the Python
loop over range(len(action_list))). -/
def effGo : Nat × Nat → List (Nat × Nat) → Nat → Nat → List (Nat × Nat)
  | _, _, _, 0 => []
  | cur, rest, t, fuel + 1 =>
    if t = cur.2 then
      match rest with
      | [] => []
      | e :: es => (t, e.1) :: effGo e es (t + 1) fuel
    else
      (t, cur.1) :: effGo cur rest (t + 1) fuel

/-- All (timestep, target slot) pairs find_efficient_path constrains, given
the event list and the horizon T.  An empty event list never reaches the
loop: the Python code crashes on chosen_targets[0] first (see the ok
predicate). -/
def effPairs (evs : List (Nat × Nat)) (T : Nat) : List (Nat × Nat) :=
  match evs with
  | [] => []
  | e :: es => effGo e es 0 T

/-- The (chosen slot, choosing time) pairs closest_target constrains: the
choosing_times list starts at 0, appends every event's effective timestep
and drops the last, so event k is paired with 0 for k = 0 and with event
k-1's effective timestep otherwise. -/
def choosePairs (evs : List (Nat × Nat)) : List (Nat × Nat) :=
  (evs.zip (0 :: evs.map (fun e => e.2))).map (fun q => (q.1.1, q.2))

/-- The four directional constraints find_efficient_path adds for timestep
t against target slot g: z3 If(cond, Not(dir), True) is cond implies the
direction boolean is false.  Target row not strictly below the agent
forbids south; not strictly above forbids north; column not strictly right
forbids east; not strictly left forbids west. -/
def dirOK (a : WMAssign) (t g : Nat) : Prop :=
  (a.trow g t ≤ a.arow t → a.south t = false) ∧
  (a.arow t ≤ a.trow g t → a.north t = false) ∧
  (a.tcol g t ≤ a.acol t → a.east t = false) ∧
  (a.acol t ≤ a.tcol g t → a.west t = false)

/-- All efficiency constraints of find_efficient_path hold. -/
def effConstraintsHold (pairs : List (Nat × Nat)) (a : WMAssign) : Prop :=
  ∀ p ∈ pairs, dirOK a p.1 p.2

/-- Sum of the two signed distance variables of slot g at timestep t, as
used by closest_target. -/
def dsum (a : WMAssign) (g t : Nat) : Int := a.drow g t + a.dcol g t

/-- All nearest-goal constraints of closest_target hold: for every
(chosen slot, choosing time) pair and every other slot, the chosen slot's
signed delta sum at the choosing time is at most the other's. -/
def closestConstraintsHold (pairs : List (Nat × Nat)) (a : WMAssign) : Prop :=
  ∀ p ∈ pairs, ∀ g, g < 3 → g ≠ p.1 → dsum a p.1 p.2 ≤ dsum a g p.2

/-- The loop-freedom constraints find_loop adds for every t in
range(len(action_list) - 1): not (agent at t+1 missed all three targets'
positions at t, and the directions at t and t+1 form an immediate
reversal). -/
def loopConstraintsHold (T : Nat) (a : WMAssign) : Prop :=
  ∀ t, t < T - 1 →
    ¬(¬(a.arow (t+1) = a.trow 0 t ∧ a.acol (t+1) = a.tcol 0 t) ∧
      ¬(a.arow (t+1) = a.trow 1 t ∧ a.acol (t+1) = a.tcol 1 t) ∧
      ¬(a.arow (t+1) = a.trow 2 t ∧ a.acol (t+1) = a.tcol 2 t) ∧
      ((a.north t = true ∧ a.south (t+1) = true) ∨
       (a.south t = true ∧ a.north (t+1) = true) ∨
       (a.west t = true ∧ a.east (t+1) = true) ∨
       (a.east t = true ∧ a.west (t+1) = true)))

/-- check_run completes without an IndexError exactly when its binding loop
does. -/
def check_run_ok (ag : List (Int × Int)) (tg : List (List (Int × Int)))
    (ac : List Nat) : Bool :=
  bind_ok ag tg ac

/-- find_loop completes without an IndexError exactly when its binding loop
does (its own constraint loop only indexes the Z3 variable lists within
range). -/
def find_loop_ok (ag : List (Int × Int)) (tg : List (List (Int × Int)))
    (ac : List Nat) : Bool :=
  bind_ok ag tg ac

/-- closest_target completes without an IndexError exactly when its binding
loop and its goal-change scan do. -/
def closest_target_ok (ag : List (Int × Int)) (tg : List (List (Int × Int)))
    (ac : List Nat) : Bool :=
  bind_ok ag tg ac && scan_ok tg ac

/-- find_efficient_path completes without an IndexError exactly when its
binding loop and scan do and at least one change event exists; with no
events the unconditional read chosen_targets[0] raises IndexError. -/
def find_efficient_path_ok (ag : List (Int × Int))
    (tg : List (List (Int × Int))) (ac : List Nat) : Bool :=
  bind_ok ag tg ac && scan_ok tg ac && !(events tg ac.length).isEmpty

/-- Satisfiability of the system check_run builds: the init_environment
constraints over a horizon of len(action_list) timesteps plus the trace
binding. -/
def check_run_sat (ag : List (Int × Int)) (tg : List (List (Int × Int)))
    (ac : List Nat) (N : Int) : Prop :=
  ∃ a, init_environment ac.length N a ∧ bindRun ag tg ac a

/-- Satisfiability of the system find_loop builds. -/
def find_loop_sat (ag : List (Int × Int)) (tg : List (List (Int × Int)))
    (ac : List Nat) (N : Int) : Prop :=
  ∃ a, init_environment ac.length N a ∧ bindRun ag tg ac a ∧
    loopConstraintsHold ac.length a

/-- Satisfiability of the system find_efficient_path builds (meaningful
when the call completes, that is find_efficient_path_ok holds). -/
def find_efficient_path_sat (ag : List (Int × Int))
    (tg : List (List (Int × Int))) (ac : List Nat) (N : Int) : Prop :=
  ∃ a, init_environment ac.length N a ∧ bindRun ag tg ac a ∧
    effConstraintsHold (effPairs (events tg ac.length) ac.length) a

/-- Satisfiability of the system closest_target builds. -/
def closest_target_sat (ag : List (Int × Int))
    (tg : List (List (Int × Int))) (ac : List Nat) (N : Int) : Prop :=
  ∃ a, init_environment ac.length N a ∧ bindRun ag tg ac a ∧
    closestConstraintsHold (choosePairs (events tg ac.length)) a

/-- The agent's recorded position at t+1 is the position some target slot
held at t (the capture disjunct of find_loop's constraint). -/
def capturedAt (ag : List (Int × Int)) (tg : List (List (Int × Int)))
    (t : Nat) : Prop :=
  ∃ i, i < 3 ∧ agR ag (t+1) = tgR tg i t ∧ agC ag (t+1) = tgC tg i t

/-- Recorded actions at t and t+1 form an immediate reversal. -/
def reversalAt (ac : List Nat) (t : Nat) : Prop :=
  (acG ac t = 0 ∧ acG ac (t+1) = 2) ∨ (acG ac t = 2 ∧ acG ac (t+1) = 0) ∨
  (acG ac t = 3 ∧ acG ac (t+1) = 1) ∨ (acG ac t = 1 ∧ acG ac (t+1) = 3)

/-- Some step of the trace is an immediate reversal not excused by a
capture. -/
def hasCaptureFreeReversal (ag : List (Int × Int))
    (tg : List (List (Int × Int))) (ac : List Nat) : Prop :=
  ∃ t, t < ac.length - 1 ∧ reversalAt ac t ∧ ¬ capturedAt ag tg t

/-- The recorded move at timestep t works against target slot g on some
axis: south while g is not strictly below, north while not strictly above,
east while not strictly right, or west while not strictly left. -/
def violatesAt (ag : List (Int × Int)) (tg : List (List (Int × Int)))
    (ac : List Nat) (t g : Nat) : Prop :=
  (tgR tg g t ≤ agR ag t ∧ acG ac t = 2) ∨
  (agR ag t ≤ tgR tg g t ∧ acG ac t = 0) ∨
  (tgC tg g t ≤ agC ag t ∧ acG ac t = 1) ∨
  (agC ag t ≤ tgC tg g t ∧ acG ac t = 3)

/-- Signed delta sum of slot g at timestep t read off the trace: the value
closest_target's distance variables take there. -/
def tdsum (ag : List (Int × Int)) (tg : List (List (Int × Int)))
    (g t : Nat) : Int :=
  (tgR tg g t - agR ag t) + (tgC tg g t - agC ag t)

/-- Every chosen slot is signed-delta closest at the choosing time
closest_target actually uses (0 for the first event, the previous event's
effective timestep for later ones). -/
def chosenOrderingOK (ag : List (Int × Int)) (tg : List (List (Int × Int)))
    (ac : List Nat) : Prop :=
  ∀ p ∈ choosePairs (events tg ac.length), ∀ g, g < 3 → g ≠ p.1 →
    tdsum ag tg p.1 p.2 ≤ tdsum ag tg g p.2

/-- Every chosen slot is signed-delta closest at the timestep immediately
preceding its change, the choosing time the specification describes. -/
def closestClaimOrderingOK (ag : List (Int × Int))
    (tg : List (List (Int × Int))) (ac : List Nat) : Prop :=
  ∀ e ∈ events tg ac.length, ∀ g, g < 3 → g ≠ e.1 →
    tdsum ag tg e.1 (e.2 - 1) ≤ tdsum ag tg g (e.2 - 1)

/-- Some recorded coordinate at timestep t lies outside the interval
from 0 up to (excluding) the grid size. -/
def OOBAt (ag : List (Int × Int)) (tg : List (List (Int × Int)))
    (N : Int) (t : Nat) : Prop :=
  ¬(0 ≤ agR ag t ∧ agR ag t < N) ∨ ¬(0 ≤ agC ag t ∧ agC ag t < N) ∨
  ∃ i, i < 3 ∧ (¬(0 ≤ tgR tg i t ∧ tgR tg i t < N) ∨
    ¬(0 ≤ tgC tg i t ∧ tgC tg i t < N))

/-- Exactly one of the four direction booleans is true at timestep t. -/
def exactlyOneDir (a : WMAssign) (t : Nat) : Prop :=
  (a.north t = true ∧ a.east t = false ∧ a.south t = false ∧ a.west t = false) ∨
  (a.north t = false ∧ a.east t = true ∧ a.south t = false ∧ a.west t = false) ∨
  (a.north t = false ∧ a.east t = false ∧ a.south t = true ∧ a.west t = false) ∨
  (a.north t = false ∧ a.east t = false ∧ a.south t = false ∧ a.west t = true)

/-- Two assignments agree on every variable init_environment or a trace
binding over horizon T can mention. -/
def AgreeBelow (T : Nat) (a b : WMAssign) : Prop :=
  ∀ t, t < T →
    (a.arow t = b.arow t ∧ a.acol t = b.acol t ∧
     (∀ i, i < 3 → a.trow i t = b.trow i t ∧ a.tcol i t = b.tcol i t ∧
       a.drow i t = b.drow i t ∧ a.dcol i t = b.dcol i t) ∧
     a.north t = b.north t ∧ a.east t = b.east t ∧
     a.south t = b.south t ∧ a.west t = b.west t)

/-- Satisfying assignment of init_environment over 2 timesteps: the agent
sits at (0,0) on both steps with all direction booleans false; slot 0 sits
at (0,0) (captured at step 0) and keeps its exact position; slot 1 moves
from (1,1) to (2,2) although the agent never occupied it; slot 2 rests at
(3,3). -/
def aC1 : WMAssign := mkAssign (fun _ => 0) (fun _ => 0)
  (fun i t => if i = 0 then 0 else if i = 1 then (if t = 0 then 1 else 2) else 3)
  (fun i t => if i = 0 then 0 else if i = 1 then (if t = 0 then 1 else 2) else 3)
  (fun _ => false) (fun _ => false) (fun _ => false) (fun _ => false)

/-- Satisfying assignment of init_environment over 2 timesteps in which the
north and south booleans are both true at step 0: the agent moves from
(5,5) to (4,5), following north, which takes precedence in the movement
equation; goals rest at (0,0), (0,1), (0,2). -/
def aC2 : WMAssign := mkAssign (fun t => if t = 0 then 5 else 4) (fun _ => 5)
  (fun _ _ => 0) (fun i _ => (i : Int))
  (fun t => t == 0) (fun _ => false) (fun t => t == 0) (fun _ => false)

/-- Satisfying assignment of init_environment over 2 timesteps with north
and south both true at step 0 and the agent's row decreasing by 1, from
(7,7) to (6,7). -/
def aC7 : WMAssign := mkAssign (fun t => if t = 0 then 7 else 6) (fun _ => 7)
  (fun _ _ => 0) (fun i _ => (i : Int))
  (fun t => t == 0) (fun _ => false) (fun t => t == 0) (fun _ => false)

instance (T : Nat) (N : Int) (a : WMAssign) : Decidable (inBoundsC T N a) := by
  unfold inBoundsC; infer_instance

instance (T : Nat) (a : WMAssign) : Decidable (captureC T a) := by
  unfold captureC; infer_instance

instance (T : Nat) (a : WMAssign) : Decidable (distinctC T a) := by
  unfold distinctC; infer_instance

instance (T : Nat) (a : WMAssign) : Decidable (deltaC T a) := by
  unfold deltaC; infer_instance

instance (T : Nat) (a : WMAssign) : Decidable (moveC T a) := by
  unfold moveC; infer_instance

instance (T : Nat) (N : Int) (a : WMAssign) : Decidable (init_environment T N a) := by
  unfold init_environment; infer_instance

instance (ag : List (Int × Int)) (tg : List (List (Int × Int))) (ac : List Nat)
    (a : WMAssign) : Decidable (bindRun ag tg ac a) := by
  unfold bindRun; infer_instance

instance (ag : List (Int × Int)) (tg : List (List (Int × Int))) (ac : List Nat) :
    Decidable (Shaped ag tg ac) := by
  unfold Shaped; infer_instance

instance (a : WMAssign) (t g : Nat) : Decidable (dirOK a t g) := by
  unfold dirOK; infer_instance

instance (pairs : List (Nat × Nat)) (a : WMAssign) :
    Decidable (effConstraintsHold pairs a) := by
  unfold effConstraintsHold; infer_instance

instance (pairs : List (Nat × Nat)) (a : WMAssign) :
    Decidable (closestConstraintsHold pairs a) := by
  unfold closestConstraintsHold; infer_instance

instance (T : Nat) (a : WMAssign) : Decidable (loopConstraintsHold T a) := by
  unfold loopConstraintsHold; infer_instance

instance (ag : List (Int × Int)) (tg : List (List (Int × Int))) (t : Nat) :
    Decidable (capturedAt ag tg t) := by
  unfold capturedAt; infer_instance

instance (ac : List Nat) (t : Nat) : Decidable (reversalAt ac t) := by
  unfold reversalAt; infer_instance

instance (ag : List (Int × Int)) (tg : List (List (Int × Int))) (ac : List Nat) :
    Decidable (hasCaptureFreeReversal ag tg ac) := by
  unfold hasCaptureFreeReversal; infer_instance

instance (ag : List (Int × Int)) (tg : List (List (Int × Int))) (ac : List Nat)
    (t g : Nat) : Decidable (violatesAt ag tg ac t g) := by
  unfold violatesAt; infer_instance

instance (ag : List (Int × Int)) (tg : List (List (Int × Int))) (ac : List Nat) :
    Decidable (chosenOrderingOK ag tg ac) := by
  unfold chosenOrderingOK; infer_instance

instance (ag : List (Int × Int)) (tg : List (List (Int × Int))) (ac : List Nat) :
    Decidable (closestClaimOrderingOK ag tg ac) := by
  unfold closestClaimOrderingOK; infer_instance

instance (ag : List (Int × Int)) (tg : List (List (Int × Int))) (N : Int) (t : Nat) :
    Decidable (OOBAt ag tg N t) := by
  unfold OOBAt; infer_instance

instance (a : WMAssign) (t : Nat) : Decidable (exactlyOneDir a t) := by
  unfold exactlyOneDir; infer_instance


/-- Two-step trace in which goal slots 1 and 2 both change over step 0,
while the agent moves east from (5,5) to (5,6); it satisfies every
init_environment constraint. -/
def agX : List (Int × Int) := [(5, 5), (5, 6)]

/-- Goal trace of the two-event trace: slot 0 rests at (9,9); slot 1 moves
from (4,4) to (3,4); slot 2 moves from (6,2) to (6,3). -/
def tgX : List (List (Int × Int)) :=
  [[(9, 9), (4, 4), (6, 2)], [(9, 9), (3, 4), (6, 3)]]

/-- Action trace of the two-event trace: east at both steps. -/
def acX : List Nat := [1, 1]

/-- Two-step trace with a single capture: the agent steps east onto slot
0's position (5,6), and slot 0 relocates to (1,1). -/
def agY : List (Int × Int) := [(5, 5), (5, 6)]

/-- Goal trace of the capture trace: slot 0 moves from (5,6) to (1,1);
slots 1 and 2 rest at (9,9) and (6,7). -/
def tgY : List (List (Int × Int)) :=
  [[(5, 6), (9, 9), (6, 7)], [(1, 1), (9, 9), (6, 7)]]

/-- Action trace of the capture trace. -/
def acY : List Nat := [1, 1]

/-- Agent trace of length 1 for the shape-mismatch input. -/
def agZ : List (Int × Int) := [(5, 5)]

/-- Goal trace of length 1 with four goal slots. -/
def tgZ : List (List (Int × Int)) := [[(1, 1), (2, 2), (3, 3), (4, 4)]]

/-- Action trace of length 2, longer than the agent trace. -/
def acZ : List Nat := [1, 0]

/-- Well-shaped single-step trace for the shape characterization witness. -/
def agW4 : List (Int × Int) := [(2, 2)]

/-- Goal trace for the shape characterization witness. -/
def tgW4 : List (List (Int × Int)) := [[(0, 0), (0, 1), (0, 2)]]

/-- Action trace of length 2 for the shape characterization witness. -/
def acW4 : List Nat := [3, 3]

/-- Three-step trace with a capture-free north-then-south reversal. -/
def ag5 : List (Int × Int) := [(5, 5), (4, 5), (5, 5)]

/-- Static goal trace shared by the two loop-check traces. -/
def tg5 : List (List (Int × Int)) :=
  [[(0, 0), (0, 1), (0, 2)], [(0, 0), (0, 1), (0, 2)], [(0, 0), (0, 1), (0, 2)]]

/-- Actions north, south, north: an immediate reversal at step 0. -/
def ac5 : List Nat := [0, 2, 0]

/-- Three-step trace moving north twice: no reversal anywhere. -/
def ag5b : List (Int × Int) := [(5, 5), (4, 5), (3, 5)]

/-- Actions north, north, east: reversal-free. -/
def ac5b : List Nat := [0, 0, 1]

/-- Three-step trace that moves south at step 0 although the active
pursuit target, slot 1 at (0,0), is strictly above the agent. -/
def ag6 : List (Int × Int) := [(5, 5), (6, 5), (5, 5)]

/-- Goal trace whose only change event is slot 1 moving from (0,0) to
(0,5) over step 1. -/
def tg6 : List (List (Int × Int)) :=
  [[(9, 9), (0, 0), (4, 4)], [(9, 9), (0, 0), (4, 4)], [(9, 9), (0, 5), (4, 4)]]

/-- Actions south, north, north. -/
def ac6 : List Nat := [2, 0, 0]

/-- Single-step trace whose agent row 10 lies outside a grid of size 10. -/
def ag8 : List (Int × Int) := [(10, 5)]

/-- In-bounds goal trace for the out-of-bounds input. -/
def tg8 : List (List (Int × Int)) := [[(0, 0), (0, 1), (0, 2)]]

/-- Action trace for the out-of-bounds input. -/
def ac8 : List Nat := [0]

/-- Two-step trace in which no goal slot ever changes position. -/
def ag9 : List (Int × Int) := [(5, 5), (4, 5)]

/-- Static goal trace: no change events at all. -/
def tg9 : List (List (Int × Int)) :=
  [[(0, 0), (0, 1), (0, 2)], [(0, 0), (0, 1), (0, 2)]]

/-- Action trace for the no-capture input. -/
def ac9 : List Nat := [0, 0]

/-- Three-step trace: the agent captures slot 0 at (5,6) over step 0 and
then keeps moving east, away from every goal, after the final capture. -/
def ag10 : List (Int × Int) := [(5, 5), (5, 6), (5, 7)]

/-- Goal trace whose only change event is slot 0 relocating from (5,6) to
(0,0) over step 0 (the capture). -/
def tg10 : List (List (Int × Int)) :=
  [[(5, 6), (1, 0), (9, 9)], [(0, 0), (1, 0), (9, 9)], [(0, 0), (1, 0), (9, 9)]]

/-- Actions east, east, east. -/
def ac10 : List Nat := [1, 1, 1]

/-- Two-step well-shaped trace with in-range actions, for the one-hot
binding witness. -/
def agW2 : List (Int × Int) := [(3, 3), (3, 4)]

/-- Goal trace for the one-hot binding witness. -/
def tgW2 : List (List (Int × Int)) :=
  [[(0, 0), (0, 1), (0, 2)], [(0, 0), (0, 1), (0, 2)]]

/-- Action trace for the one-hot binding witness: east twice. -/
def acW2 : List Nat := [1, 1]


/-- The canonical trace assignment satisfies the binding constraints. -/
theorem bind_traceAssign (ag : List (Int × Int)) (tg : List (List (Int × Int)))
    (ac : List Nat) : bindRun ag tg ac (traceAssign ag tg ac) :=
  fun _ _ => ⟨rfl, rfl, fun _ _ => ⟨rfl, rfl⟩, rfl, rfl, rfl, rfl⟩

/-- Any assignment meeting the environment and binding constraints of a
well-shaped trace agrees with the canonical trace assignment on every
variable the constraints mention: positions and directions are pinned
directly, and the delta constraints then force the distance variables. -/
theorem agree_of_bind {ag : List (Int × Int)} {tg : List (List (Int × Int))}
    {ac : List Nat} {N : Int} {a : WMAssign} (hS : Shaped ag tg ac)
    (he : init_environment ac.length N a) (hb : bindRun ag tg ac a) :
    AgreeBelow ac.length a (traceAssign ag tg ac) := by
  intro t ht
  have hlen : t < ag.length := by rw [hS.1]; exact ht
  obtain ⟨h1, h2, h3, h4, h5, h6, h7⟩ := hb t hlen
  have hd := he.2.2.2.1 t ht
  refine ⟨h1, h2, ?_, h4, h5, h6, h7⟩
  intro i hi
  obtain ⟨htr, htc⟩ := h3 i hi
  obtain ⟨hdr, hdc⟩ := hd i hi
  refine ⟨htr, htc, ?_, ?_⟩
  · show a.drow i t = tgR tg i t - agR ag t
    rw [hdr, htr, h1]
  · show a.dcol i t = tgC tg i t - agC ag t
    rw [hdc, htc, h2]

/-- Transfer of the environment constraints along agreement below the
horizon. -/
theorem env_of_agree {T : Nat} {N : Int} {a b : WMAssign}
    (hag : AgreeBelow T a b) (he : init_environment T N a) :
    init_environment T N b := by
  obtain ⟨hbnd, hcap, hdis, hdel, hmov⟩ := he
  refine ⟨?_, ?_, ?_, ?_, ?_⟩
  · intro t ht
    obtain ⟨er, ec, etar, _, _, _, _⟩ := hag t ht
    obtain ⟨hb1, hb2, hb3, hb4, hb5⟩ := hbnd t ht
    refine ⟨?_, ?_, ?_, ?_, ?_⟩
    · intro i hi
      obtain ⟨e1, e2, _, _⟩ := etar i hi
      rw [← e1, ← e2]
      exact hb1 i hi
    · rw [← er]; exact hb2
    · rw [← er]; exact hb3
    · rw [← ec]; exact hb4
    · rw [← ec]; exact hb5
  · intro s hs i hi
    have hsT : s < T := by omega
    have hs1T : s + 1 < T := by omega
    obtain ⟨er, ec, etar, _, _, _, _⟩ := hag s hsT
    obtain ⟨_, _, etar1, _, _, _, _⟩ := hag (s+1) hs1T
    obtain ⟨e1, e2, _, _⟩ := etar i hi
    obtain ⟨f1, f2, _, _⟩ := etar1 i hi
    rw [← e1, ← e2, ← f1, ← f2, ← er, ← ec]
    exact hcap s hs i hi
  · intro t ht i hi j hj
    obtain ⟨_, _, etar, _, _, _, _⟩ := hag t ht
    obtain ⟨e1, e2, _, _⟩ := etar i hi
    obtain ⟨f1, f2, _, _⟩ := etar j (by omega)
    rw [← e1, ← e2, ← f1, ← f2]
    exact hdis t ht i hi j hj
  · intro t ht i hi
    obtain ⟨er, ec, etar, _, _, _, _⟩ := hag t ht
    obtain ⟨e1, e2, e3, e4⟩ := etar i hi
    rw [← e1, ← e2, ← e3, ← e4, ← er, ← ec]
    exact hdel t ht i hi
  · intro s hs
    have hsT : s < T := by omega
    have hs1T : s + 1 < T := by omega
    obtain ⟨er, ec, _, en, ee, es, ew⟩ := hag s hsT
    obtain ⟨fr, fc, _, _, _, _, _⟩ := hag (s+1) hs1T
    rw [← er, ← ec, ← fr, ← fc, ← en, ← ee, ← es, ← ew]
    exact hmov s hs

/-- Transfer of the loop-freedom constraints along agreement. -/
theorem loop_of_agree {T : Nat} {a b : WMAssign} (hag : AgreeBelow T a b)
    (h : loopConstraintsHold T a) : loopConstraintsHold T b := by
  intro t ht
  have htT : t < T := by omega
  have ht1T : t + 1 < T := by omega
  obtain ⟨_, _, etar, en, ee, es, ew⟩ := hag t htT
  obtain ⟨fr, fc, _, fn, fe, fs, fw⟩ := hag (t+1) ht1T
  obtain ⟨e01, e02, _, _⟩ := etar 0 (by omega)
  obtain ⟨e11, e12, _, _⟩ := etar 1 (by omega)
  obtain ⟨e21, e22, _, _⟩ := etar 2 (by omega)
  rw [← fr, ← fc, ← e01, ← e02, ← e11, ← e12, ← e21, ← e22,
    ← en, ← ee, ← es, ← ew, ← fn, ← fe, ← fs, ← fw]
  exact h t ht

/-- Transfer of the nearest-goal constraints along agreement, given that
every constrained pair stays below the horizon. -/
theorem closest_of_agree {T : Nat} {a b : WMAssign} {pairs : List (Nat × Nat)}
    (hag : AgreeBelow T a b) (hp : ∀ p ∈ pairs, p.1 < 3 ∧ p.2 < T)
    (h : closestConstraintsHold pairs a) : closestConstraintsHold pairs b := by
  intro p hmem g hg hne
  obtain ⟨hp1, hp2⟩ := hp p hmem
  have etar := (hag p.2 hp2).2.2.1
  obtain ⟨_, _, d1, d2⟩ := etar p.1 hp1
  obtain ⟨_, _, d3, d4⟩ := etar g hg
  show dsum b p.1 p.2 ≤ dsum b g p.2
  unfold dsum
  rw [← d1, ← d2, ← d3, ← d4]
  exact h p hmem g hg hne

/-- Transfer of the efficiency constraints along agreement, given that
every constrained pair stays below the horizon. -/
theorem eff_of_agree {T : Nat} {a b : WMAssign} {pairs : List (Nat × Nat)}
    (hag : AgreeBelow T a b) (hp : ∀ p ∈ pairs, p.1 < T ∧ p.2 < 3)
    (h : effConstraintsHold pairs a) : effConstraintsHold pairs b := by
  intro p hmem
  obtain ⟨hp1, hp2⟩ := hp p hmem
  obtain ⟨er, ec, etar, en, ee, es, ew⟩ := hag p.1 hp1
  obtain ⟨e1, e2, _, _⟩ := etar p.2 hp2
  show dirOK b p.1 p.2
  unfold dirOK
  rw [← er, ← ec, ← e1, ← e2, ← en, ← ee, ← es, ← ew]
  exact h p hmem

/-- Every detected event at scan step t has a slot below 3 and effective
timestep t + 1. -/
theorem eventsAt_mem {tg : List (List (Int × Int))} {t : Nat} {e : Nat × Nat}
    (h : e ∈ eventsAt tg t) : e.1 < 3 ∧ e.2 = t + 1 := by
  unfold eventsAt at h
  rw [List.mem_filterMap] at h
  obtain ⟨i, hi, hsome⟩ := h
  by_cases hc : changedAt tg i t
  · rw [if_pos hc, Option.some_inj] at hsome
    subst hsome
    exact ⟨List.mem_range.mp hi, rfl⟩
  · rw [if_neg hc] at hsome
    exact absurd hsome (by simp)

/-- Every event scanned below step n has slot below 3 and effective
timestep between 1 and n. -/
theorem eventsUpTo_mem {tg : List (List (Int × Int))} {e : Nat × Nat} :
    ∀ {n : Nat}, e ∈ eventsUpTo tg n → e.1 < 3 ∧ 1 ≤ e.2 ∧ e.2 ≤ n := by
  intro n
  induction n with
  | zero => intro h; exact absurd h (by simp [eventsUpTo])
  | succ m ih =>
    intro h
    rw [eventsUpTo, List.mem_append] at h
    rcases h with h | h
    · have := ih h
      omega
    · have := eventsAt_mem h
      omega

/-- Bounds for the events of a horizon-T scan. -/
theorem events_mem {tg : List (List (Int × Int))} {T : Nat} {e : Nat × Nat}
    (h : e ∈ events tg T) : e.1 < 3 ∧ 1 ≤ e.2 ∧ e.2 ≤ T - 1 :=
  eventsUpTo_mem h

/-- A pair of closest_target's constraint list takes its slot from some
event and its time from 0 or from some event's effective timestep. -/
theorem choosePairs_mem {evs : List (Nat × Nat)} {p : Nat × Nat}
    (h : p ∈ choosePairs evs) :
    (∃ e ∈ evs, p.1 = e.1) ∧ (p.2 = 0 ∨ ∃ e ∈ evs, p.2 = e.2) := by
  unfold choosePairs at h
  rw [List.mem_map] at h
  obtain ⟨q, hq, hrfl⟩ := h
  obtain ⟨hq1, hq2⟩ := List.of_mem_zip hq
  subst hrfl
  constructor
  · exact ⟨q.1, hq1, rfl⟩
  · rcases List.mem_cons.mp hq2 with h0 | hmap
    · exact Or.inl h0
    · obtain ⟨e, he, hrfl⟩ := List.mem_map.mp hmap
      exact Or.inr ⟨e, he, hrfl.symm⟩

/-- Bounds for closest_target's constraint pairs: slots below 3, times
below the horizon. -/
theorem choosePairs_bounds {tg : List (List (Int × Int))} {T : Nat}
    {p : Nat × Nat} (h : p ∈ choosePairs (events tg T)) :
    p.1 < 3 ∧ p.2 < T := by
  obtain ⟨⟨e, he, h1⟩, h2⟩ := choosePairs_mem h
  have hb := events_mem he
  constructor
  · omega
  · rcases h2 with h2 | ⟨f, hf, h2⟩
    · omega
    · have := events_mem hf
      omega

/-- Every pair the efficiency loop emits lies between the start time and
the fuel bound, and its slot is the current event's or one of the
remaining events'. -/
theorem effGo_bounds :
    ∀ (fuel : Nat) (cur : Nat × Nat) (rest : List (Nat × Nat)) (t : Nat)
      (p : Nat × Nat), p ∈ effGo cur rest t fuel →
      t ≤ p.1 ∧ p.1 < t + fuel ∧ (p.2 = cur.1 ∨ ∃ e ∈ rest, p.2 = e.1) := by
  intro fuel
  induction fuel with
  | zero => intro cur rest t p h; exact absurd h (by simp [effGo])
  | succ n ih =>
    intro cur rest t p h
    unfold effGo at h
    by_cases hc : t = cur.2
    · rw [if_pos hc] at h
      cases rest with
      | nil => exact absurd h (by simp)
      | cons e es =>
        rcases List.mem_cons.mp h with h | h
        · subst h
          exact ⟨Nat.le_refl t, by omega, Or.inr ⟨e, List.mem_cons_self e es, rfl⟩⟩
        · obtain ⟨h1, h2, h3⟩ := ih e es (t+1) p h
          refine ⟨by omega, by omega, ?_⟩
          rcases h3 with h3 | ⟨f, hf, h3⟩
          · exact Or.inr ⟨e, List.mem_cons_self e es, h3⟩
          · exact Or.inr ⟨f, List.mem_cons_of_mem e hf, h3⟩
    · rw [if_neg hc] at h
      rcases List.mem_cons.mp h with h | h
      · subst h
        exact ⟨Nat.le_refl t, by omega, Or.inl rfl⟩
      · obtain ⟨h1, h2, h3⟩ := ih cur rest (t+1) p h
        exact ⟨by omega, by omega, h3⟩

/-- Bounds for find_efficient_path's constraint pairs: times below the
horizon, slots below 3. -/
theorem effPairs_bounds {tg : List (List (Int × Int))} {T : Nat}
    {p : Nat × Nat} (h : p ∈ effPairs (events tg T) T) :
    p.1 < T ∧ p.2 < 3 := by
  unfold effPairs at h
  rcases hevs : events tg T with _ | ⟨e, es⟩
  · rw [hevs] at h
    exact absurd h (by simp)
  · rw [hevs] at h
    obtain ⟨_, h2, h3⟩ := effGo_bounds T e es 0 p h
    refine ⟨by omega, ?_⟩
    rcases h3 with h3 | ⟨f, hf, h3⟩
    · have : e ∈ events tg T := by rw [hevs]; exact List.mem_cons_self e es
      have := events_mem this
      omega
    · have : f ∈ events tg T := by rw [hevs]; exact List.mem_cons_of_mem e hf
      have := events_mem this
      omega

/-- A well-shaped trace's binding loop completes. -/
theorem shaped_bind_ok {ag : List (Int × Int)} {tg : List (List (Int × Int))}
    {ac : List Nat} (hS : Shaped ag tg ac) : bind_ok ag tg ac = true := by
  obtain ⟨h1, h2, h3⟩ := hS
  unfold bind_ok
  rw [decide_eq_true_iff]
  intro t ht
  refine ⟨by omega, by omega, ?_⟩
  rw [h3 t (by omega)]

/-- A well-shaped trace's goal-change scan completes. -/
theorem shaped_scan_ok {ag : List (Int × Int)} {tg : List (List (Int × Int))}
    {ac : List Nat} (hS : Shaped ag tg ac) : scan_ok tg ac = true := by
  obtain ⟨h1, h2, h3⟩ := hS
  unfold scan_ok
  rw [decide_eq_true_iff]
  intro t ht
  refine ⟨by omega, ?_, ?_⟩
  · rw [h3 t (by omega)]
  · rw [h3 (t+1) (by omega)]

/-- Pin-then-query collapse for check_run: on a well-shaped trace the fully
pinned system is satisfiable exactly when the canonical trace assignment
meets the environment constraints. -/
theorem check_run_sat_iff {ag : List (Int × Int)} {tg : List (List (Int × Int))}
    {ac : List Nat} {N : Int} (hS : Shaped ag tg ac) :
    (check_run_sat ag tg ac N ↔
      init_environment ac.length N (traceAssign ag tg ac)) := by
  constructor
  · rintro ⟨a, he, hb⟩
    exact env_of_agree (agree_of_bind hS he hb) he
  · intro h
    exact ⟨traceAssign ag tg ac, h, bind_traceAssign ag tg ac⟩

/-- Pin-then-query collapse for find_loop. -/
theorem find_loop_sat_iff {ag : List (Int × Int)} {tg : List (List (Int × Int))}
    {ac : List Nat} {N : Int} (hS : Shaped ag tg ac) :
    (find_loop_sat ag tg ac N ↔
      (init_environment ac.length N (traceAssign ag tg ac) ∧
       loopConstraintsHold ac.length (traceAssign ag tg ac))) := by
  constructor
  · rintro ⟨a, he, hb, hl⟩
    have hag := agree_of_bind hS he hb
    exact ⟨env_of_agree hag he, loop_of_agree hag hl⟩
  · rintro ⟨h1, h2⟩
    exact ⟨traceAssign ag tg ac, h1, bind_traceAssign ag tg ac, h2⟩

/-- Pin-then-query collapse for closest_target. -/
theorem closest_target_sat_iff {ag : List (Int × Int)}
    {tg : List (List (Int × Int))} {ac : List Nat} {N : Int}
    (hS : Shaped ag tg ac) :
    (closest_target_sat ag tg ac N ↔
      (init_environment ac.length N (traceAssign ag tg ac) ∧
       closestConstraintsHold (choosePairs (events tg ac.length))
         (traceAssign ag tg ac))) := by
  constructor
  · rintro ⟨a, he, hb, hl⟩
    have hag := agree_of_bind hS he hb
    exact ⟨env_of_agree hag he,
      closest_of_agree hag (fun p hp => choosePairs_bounds hp) hl⟩
  · rintro ⟨h1, h2⟩
    exact ⟨traceAssign ag tg ac, h1, bind_traceAssign ag tg ac, h2⟩

/-- Pin-then-query collapse for find_efficient_path. -/
theorem find_efficient_path_sat_iff {ag : List (Int × Int)}
    {tg : List (List (Int × Int))} {ac : List Nat} {N : Int}
    (hS : Shaped ag tg ac) :
    (find_efficient_path_sat ag tg ac N ↔
      (init_environment ac.length N (traceAssign ag tg ac) ∧
       effConstraintsHold (effPairs (events tg ac.length) ac.length)
         (traceAssign ag tg ac))) := by
  constructor
  · rintro ⟨a, he, hb, hl⟩
    have hag := agree_of_bind hS he hb
    exact ⟨env_of_agree hag he,
      eff_of_agree hag (fun p hp => effPairs_bounds hp) hl⟩
  · rintro ⟨h1, h2⟩
    exact ⟨traceAssign ag tg ac, h1, bind_traceAssign ag tg ac, h2⟩

/-- On the canonical trace assignment, find_loop's added constraints hold
exactly when the trace has no capture-free immediate reversal. -/
theorem loopHold_iff {ag : List (Int × Int)} {tg : List (List (Int × Int))}
    {ac : List Nat} :
    (loopConstraintsHold ac.length (traceAssign ag tg ac) ↔
      ¬ hasCaptureFreeReversal ag tg ac) := by
  constructor
  · rintro h ⟨t, ht, hrev, hncap⟩
    apply h t ht
    refine ⟨?_, ?_, ?_, ?_⟩
    · exact fun hc => hncap ⟨0, by omega, hc.1, hc.2⟩
    · exact fun hc => hncap ⟨1, by omega, hc.1, hc.2⟩
    · exact fun hc => hncap ⟨2, by omega, hc.1, hc.2⟩
    · rcases hrev with ⟨h1, h2⟩ | ⟨h1, h2⟩ | ⟨h1, h2⟩ | ⟨h1, h2⟩
      · exact Or.inl ⟨show (acG ac t == 0) = true by rw [h1]; rfl,
          show (acG ac (t+1) == 2) = true by rw [h2]; rfl⟩
      · exact Or.inr (Or.inl ⟨show (acG ac t == 2) = true by rw [h1]; rfl,
          show (acG ac (t+1) == 0) = true by rw [h2]; rfl⟩)
      · exact Or.inr (Or.inr (Or.inl ⟨show (acG ac t == 3) = true by rw [h1]; rfl,
          show (acG ac (t+1) == 1) = true by rw [h2]; rfl⟩))
      · exact Or.inr (Or.inr (Or.inr ⟨show (acG ac t == 1) = true by rw [h1]; rfl,
          show (acG ac (t+1) == 3) = true by rw [h2]; rfl⟩))
  · intro hn t ht hcon
    obtain ⟨hc0, hc1, hc2, hrev⟩ := hcon
    apply hn
    refine ⟨t, ht, ?_, ?_⟩
    · rcases hrev with ⟨h1, h2⟩ | ⟨h1, h2⟩ | ⟨h1, h2⟩ | ⟨h1, h2⟩
      · exact Or.inl ⟨eq_of_beq (show (acG ac t == 0) = true from h1),
          eq_of_beq (show (acG ac (t+1) == 2) = true from h2)⟩
      · exact Or.inr (Or.inl
          ⟨eq_of_beq (show (acG ac t == 2) = true from h1),
           eq_of_beq (show (acG ac (t+1) == 0) = true from h2)⟩)
      · exact Or.inr (Or.inr (Or.inl
          ⟨eq_of_beq (show (acG ac t == 3) = true from h1),
           eq_of_beq (show (acG ac (t+1) == 1) = true from h2)⟩))
      · exact Or.inr (Or.inr (Or.inr
          ⟨eq_of_beq (show (acG ac t == 1) = true from h1),
           eq_of_beq (show (acG ac (t+1) == 3) = true from h2)⟩))
    · rintro ⟨i, hi, ha, hb⟩
      interval_cases i
      · exact hc0 ⟨ha, hb⟩
      · exact hc1 ⟨ha, hb⟩
      · exact hc2 ⟨ha, hb⟩

/-- On the canonical trace assignment, the four directional constraints at
(t, g) hold exactly when the recorded move at t does not work against slot
g. -/
theorem dirOK_iff {ag : List (Int × Int)} {tg : List (List (Int × Int))}
    {ac : List Nat} (t g : Nat) :
    (dirOK (traceAssign ag tg ac) t g ↔ ¬ violatesAt ag tg ac t g) := by
  constructor
  · rintro ⟨h1, h2, h3, h4⟩ (⟨hc, he⟩ | ⟨hc, he⟩ | ⟨hc, he⟩ | ⟨hc, he⟩)
    · have hb : (acG ac t == 2) = false := h1 hc
      rw [he] at hb
      exact absurd hb (by decide)
    · have hb : (acG ac t == 0) = false := h2 hc
      rw [he] at hb
      exact absurd hb (by decide)
    · have hb : (acG ac t == 1) = false := h3 hc
      rw [he] at hb
      exact absurd hb (by decide)
    · have hb : (acG ac t == 3) = false := h4 hc
      rw [he] at hb
      exact absurd hb (by decide)
  · intro hn
    refine ⟨?_, ?_, ?_, ?_⟩
    · intro hc
      show (acG ac t == 2) = false
      cases hbe : acG ac t == 2
      · rfl
      · exact absurd (Or.inl ⟨hc, eq_of_beq hbe⟩) hn
    · intro hc
      show (acG ac t == 0) = false
      cases hbe : acG ac t == 0
      · rfl
      · exact absurd (Or.inr (Or.inl ⟨hc, eq_of_beq hbe⟩)) hn
    · intro hc
      show (acG ac t == 1) = false
      cases hbe : acG ac t == 1
      · rfl
      · exact absurd (Or.inr (Or.inr (Or.inl ⟨hc, eq_of_beq hbe⟩))) hn
    · intro hc
      show (acG ac t == 3) = false
      cases hbe : acG ac t == 3
      · rfl
      · exact absurd (Or.inr (Or.inr (Or.inr ⟨hc, eq_of_beq hbe⟩))) hn

/-- On the canonical trace assignment, closest_target's constraints are the
trace-level signed-delta-sum ordering at the pursuit-start times. -/
theorem closestHold_iff {ag : List (Int × Int)} {tg : List (List (Int × Int))}
    {ac : List Nat} :
    (closestConstraintsHold (choosePairs (events tg ac.length))
      (traceAssign ag tg ac) ↔ chosenOrderingOK ag tg ac) :=
  Iff.rfl

/-- An upper bound on all effective timesteps bounds the last one. -/
theorem arrLast_le {B : Nat} :
    ∀ {evs : List (Nat × Nat)}, (∀ e ∈ evs, e.2 ≤ B) → arrLast evs ≤ B := by
  intro evs
  induction evs with
  | nil => intro _; exact Nat.zero_le B
  | cons e es ih =>
    intro h
    cases es with
    | nil => exact h e (List.mem_cons_self e [])
    | cons f fs =>
      show arrLast (f :: fs) ≤ B
      exact ih (fun x hx => h x (List.mem_cons_of_mem e hx))

/-- Splitting the strictness of a two-or-more event list. -/
theorem strictArrs_cons {e f : Nat × Nat} {es : List (Nat × Nat)}
    (h : strictArrs (e :: f :: es) = true) :
    e.2 < f.2 ∧ strictArrs (f :: es) = true := by
  have h2 : (decide (e.2 < f.2) && strictArrs (f :: es)) = true := h
  obtain ⟨h3, h4⟩ := Bool.and_eq_true_iff.mp h2
  exact ⟨of_decide_eq_true h3, h4⟩

/-- Under strictly increasing effective timesteps, the head event's
effective timestep bounds the last one from below. -/
theorem head_le_arrLast :
    ∀ (rest : List (Nat × Nat)) (cur : Nat × Nat),
      strictArrs (cur :: rest) = true → cur.2 ≤ arrLast (cur :: rest) := by
  intro rest
  induction rest with
  | nil => intro cur _; exact Nat.le_refl _
  | cons f fs ih =>
    intro cur h
    obtain ⟨h1, h2⟩ := strictArrs_cons h
    have := ih f h2
    show cur.2 ≤ arrLast (f :: fs)
    omega

/-- Every slot an active-target lookup returns is some event's slot. -/
theorem activeIn_slot :
    ∀ {evs : List (Nat × Nat)} {s g : Nat},
      activeIn evs s = some g → ∃ e ∈ evs, g = e.1 := by
  intro evs
  induction evs with
  | nil => intro s g h; exact absurd h (by simp [activeIn])
  | cons e es ih =>
    intro s g h
    rw [activeIn] at h
    by_cases hc : s < e.2
    · rw [if_pos hc, Option.some_inj] at h
      exact ⟨e, List.mem_cons_self e es, h.symm⟩
    · rw [if_neg hc] at h
      obtain ⟨f, hf, hg⟩ := ih h
      exact ⟨f, List.mem_cons_of_mem e hf, hg⟩

/-- Under strictly increasing effective timesteps, an active target exists
only strictly before the last effective timestep. -/
theorem activeIn_lt_arrLast :
    ∀ {evs : List (Nat × Nat)} {s g : Nat}, strictArrs evs = true →
      activeIn evs s = some g → s < arrLast evs := by
  intro evs
  induction evs with
  | nil => intro s g _ h; exact absurd h (by simp [activeIn])
  | cons e es ih =>
    intro s g hst h
    rw [activeIn] at h
    by_cases hc : s < e.2
    · have := head_le_arrLast es e hst
      omega
    · rw [if_neg hc] at h
      cases es with
      | nil => exact absurd h (by simp [activeIn])
      | cons f fs =>
        have := ih (strictArrs_cons hst).2 h
        show s < arrLast (f :: fs)
        exact this

/-- Characterization of the pairs the efficiency loop emits: starting at
time t on the current event cur with remaining events rest, under strictly
increasing effective timesteps, enough fuel, and t at most cur's effective
timestep, the loop constrains exactly the timesteps from t up to (but
excluding) the last effective timestep, each against its active target. -/
theorem effGo_mem_iff :
    ∀ (fuel : Nat) (cur : Nat × Nat) (rest : List (Nat × Nat)) (t : Nat),
      strictArrs (cur :: rest) = true → t ≤ cur.2 →
      arrLast (cur :: rest) ≤ t + fuel →
      ∀ s g, ((s, g) ∈ effGo cur rest t fuel ↔
        (t ≤ s ∧ s < arrLast (cur :: rest) ∧
         activeIn (cur :: rest) s = some g)) := by
  intro fuel
  induction fuel with
  | zero =>
    intro cur rest t _ _ hfuel s g
    constructor
    · intro h; exact absurd h (by simp [effGo])
    · rintro ⟨h1, h2, _⟩; omega
  | succ n ih =>
    intro cur rest t hst ht hfuel s g
    by_cases hc : t = cur.2
    · cases rest with
      | nil =>
        have hnil : effGo cur [] t (n+1) = [] := by
          simp only [effGo]; rw [if_pos hc]
        have harr : arrLast [cur] = cur.2 := rfl
        constructor
        · intro h
          rw [hnil] at h
          exact absurd h (by simp)
        · rintro ⟨h1, h2, _⟩; omega
      | cons e es =>
        obtain ⟨hlt, hstail⟩ := strictArrs_cons hst
        have harr : arrLast (cur :: e :: es) = arrLast (e :: es) := rfl
        have hele := head_le_arrLast es e hstail
        have hmain : effGo cur (e :: es) t (n+1) =
            (t, e.1) :: effGo e es (t+1) n := by
          simp only [effGo]; rw [if_pos hc]
        have IH := ih e es (t+1) hstail (by omega) (by omega)
        rw [hmain, harr]
        constructor
        · intro h
          rcases List.mem_cons.mp h with heq | hmem
          · rw [Prod.mk.injEq] at heq
            obtain ⟨hs, hg⟩ := heq
            subst hs
            subst hg
            refine ⟨Nat.le_refl s, by omega, ?_⟩
            rw [activeIn, if_neg (by omega), activeIn, if_pos (by omega)]
          · obtain ⟨h1, h2, h3⟩ := (IH s g).mp hmem
            refine ⟨by omega, h2, ?_⟩
            rw [activeIn, if_neg (by omega)]
            exact h3
        · rintro ⟨h1, h2, h3⟩
          rcases Nat.eq_or_lt_of_le h1 with heq | hlt2
          · rw [activeIn, if_neg (by omega), activeIn, if_pos (by omega),
              Option.some_inj] at h3
            exact List.mem_cons.mpr (Or.inl (by rw [← heq, h3]))
          · rw [activeIn, if_neg (by omega)] at h3
            exact List.mem_cons.mpr (Or.inr ((IH s g).mpr ⟨by omega, h2, h3⟩))
    · have htlt : t < cur.2 := by omega
      have hmain : effGo cur rest t (n+1) =
          (t, cur.1) :: effGo cur rest (t+1) n := by
        simp only [effGo]; rw [if_neg hc]
      have hle := head_le_arrLast rest cur hst
      have IH := ih cur rest (t+1) hst (by omega) (by omega)
      rw [hmain]
      constructor
      · intro h
        rcases List.mem_cons.mp h with heq | hmem
        · rw [Prod.mk.injEq] at heq
          obtain ⟨hs, hg⟩ := heq
          subst hs
          subst hg
          refine ⟨Nat.le_refl s, by omega, ?_⟩
          rw [activeIn, if_pos htlt]
        · obtain ⟨h1, h2, h3⟩ := (IH s g).mp hmem
          exact ⟨by omega, h2, h3⟩
      · rintro ⟨h1, h2, h3⟩
        rcases Nat.eq_or_lt_of_le h1 with heq | hlt2
        · rw [activeIn, if_pos (by omega), Option.some_inj] at h3
          exact List.mem_cons.mpr (Or.inl (by rw [← heq, h3]))
        · exact List.mem_cons.mpr (Or.inr ((IH s g).mpr ⟨by omega, h2, h3⟩))

/-- Characterization of find_efficient_path's constrained pairs when no
two goal slots change over the same step: exactly the timesteps strictly
before the last change's effective timestep, each against the slot of the
next change event. -/
theorem effPairs_mem_iff {tg : List (List (Int × Int))} {T : Nat}
    (hst : strictArrs (events tg T) = true) :
    ∀ s g, ((s, g) ∈ effPairs (events tg T) T ↔
      (s < arrLast (events tg T) ∧ activeIn (events tg T) s = some g)) := by
  intro s g
  rcases hevs : events tg T with _ | ⟨e, es⟩
  · constructor
    · intro h; exact absurd h (by simp [effPairs])
    · rintro ⟨_, h2⟩; exact absurd h2 (by simp [activeIn])
  · rw [hevs] at hst
    have hbound : ∀ x ∈ e :: es, x.2 ≤ T := by
      intro x hx
      have : x ∈ events tg T := by rw [hevs]; exact hx
      have := events_mem this
      omega
    have hfuel : arrLast (e :: es) ≤ 0 + T := by
      have := arrLast_le hbound
      omega
    have h := effGo_mem_iff T e es 0 hst (Nat.zero_le _) hfuel s g
    constructor
    · intro hmem
      obtain ⟨_, h2, h3⟩ := h.mp hmem
      exact ⟨h2, h3⟩
    · rintro ⟨h2, h3⟩
      exact h.mpr ⟨Nat.zero_le _, h2, h3⟩

/-- With no goal-slot change anywhere below n, the scan detects no
events. -/
theorem eventsUpTo_nil {tg : List (List (Int × Int))} :
    ∀ {n : Nat}, (∀ t, t < n → ∀ i, i < 3 → changedAt tg i t = false) →
      eventsUpTo tg n = [] := by
  intro n
  induction n with
  | zero => intro _; rfl
  | succ m ih =>
    intro h
    rw [eventsUpTo, ih (fun t ht i hi => h t (by omega) i hi), List.nil_append]
    unfold eventsAt
    rw [List.filterMap_eq_nil_iff]
    intro i hi
    rw [h m (by omega) i (List.mem_range.mp hi)]
    simp

/-- A well-shaped trace with at least one change event makes
find_efficient_path complete. -/
theorem shaped_eff_ok {ag : List (Int × Int)} {tg : List (List (Int × Int))}
    {ac : List Nat} (hS : Shaped ag tg ac)
    (hne : events tg ac.length ≠ []) :
    find_efficient_path_ok ag tg ac = true := by
  unfold find_efficient_path_ok
  rw [shaped_bind_ok hS, shaped_scan_ok hS]
  rcases hevs : events tg ac.length with _ | ⟨e, es⟩
  · exact absurd hevs hne
  · rfl

/-- A well-shaped trace makes closest_target complete. -/
theorem shaped_closest_ok {ag : List (Int × Int)}
    {tg : List (List (Int × Int))} {ac : List Nat} (hS : Shaped ag tg ac) :
    closest_target_ok ag tg ac = true := by
  unfold closest_target_ok
  rw [shaped_bind_ok hS, shaped_scan_ok hS]
  rfl

/-- Claim C1: the World Model does not enforce capture-triggered goal
relocation.  The assignment aC1 satisfies every init_environment
constraint over horizon 2 although: slot 0 is captured at step 0 (its
position equals the agent's) and keeps its exact position at step 1 (the
claimed no-op-relocation ban fails, the code instead forbids changing both
coordinates), and slot 1 changes position although the agent never
occupied it (the claimed only-on-capture condition fails, the code adds no
constraint in that case). -/
theorem c1_env_accepts_violations :
    init_environment 2 10 aC1 ∧
    (aC1.trow 0 0 = aC1.arow 0 ∧ aC1.tcol 0 0 = aC1.acol 0) ∧
    (aC1.trow 0 1 = aC1.trow 0 0 ∧ aC1.tcol 0 1 = aC1.tcol 0 0) ∧
    ¬(aC1.trow 1 0 = aC1.arow 0 ∧ aC1.tcol 1 0 = aC1.acol 0) ∧
    ¬(aC1.trow 1 1 = aC1.trow 1 0 ∧ aC1.tcol 1 1 = aC1.tcol 1 0) := by
  decide

/-- Claim C2 counterexample: a satisfying assignment of the World Model
constraints alone (horizon 2, grid 10) in which the north and south
booleans are both true at timestep 0, so the direction booleans are not
mutually exclusive before trace binding. -/
theorem c2_counterexample :
    init_environment 2 10 aC2 ∧ aC2.north 0 = true ∧ aC2.south 0 = true := by
  decide

/-- Claim C2 as amended: the one-hot property comes from the trace
binding, not from init_environment: binding a trace whose recorded actions
are all in range (below 4) pins, at every bound timestep, exactly one of
the four direction booleans true. -/
theorem c2_bound_one_hot :
    ∀ (ag : List (Int × Int)) (tg : List (List (Int × Int))) (ac : List Nat)
      (a : WMAssign), ag.length = ac.length →
      (∀ t, t < ac.length → acG ac t < 4) →
      bindRun ag tg ac a →
      ∀ t, t < ac.length → exactlyOneDir a t := by
  intro ag tg ac a hlen hact hb t ht
  obtain ⟨_, _, _, h4, h5, h6, h7⟩ := hb t (by omega)
  have hv : acG ac t = 0 ∨ acG ac t = 1 ∨ acG ac t = 2 ∨ acG ac t = 3 := by
    have := hact t ht
    omega
  rcases hv with h | h | h | h
  · exact Or.inl ⟨by rw [h4, h]; rfl, by rw [h5, h]; rfl,
      by rw [h6, h]; rfl, by rw [h7, h]; rfl⟩
  · exact Or.inr (Or.inl ⟨by rw [h4, h]; rfl, by rw [h5, h]; rfl,
      by rw [h6, h]; rfl, by rw [h7, h]; rfl⟩)
  · exact Or.inr (Or.inr (Or.inl ⟨by rw [h4, h]; rfl, by rw [h5, h]; rfl,
      by rw [h6, h]; rfl, by rw [h7, h]; rfl⟩))
  · exact Or.inr (Or.inr (Or.inr ⟨by rw [h4, h]; rfl, by rw [h5, h]; rfl,
      by rw [h6, h]; rfl, by rw [h7, h]; rfl⟩))

/-- Witness for the amended claim C2 at a concrete bound trace. -/
theorem c2_bound_one_hot_witness : exactlyOneDir (traceAssign agW2 tgW2 acW2) 0 :=
  c2_bound_one_hot agW2 tgW2 acW2 (traceAssign agW2 tgW2 acW2) (by decide)
    (by decide) (by decide) 0 (by decide)

/-- Claim C3 counterexample: a well-shaped, World-Model-consistent trace
on which every chosen slot is signed-delta closest at the timestep
immediately preceding its change (the claim's choice time), yet
closest_target is unsatisfiable, because the code evaluates the second
event at the first event's effective timestep instead. -/
theorem c3_counterexample :
    Shaped agX tgX acX ∧
    init_environment 2 10 (traceAssign agX tgX acX) ∧
    closestClaimOrderingOK agX tgX acX ∧
    closest_target_ok agX tgX acX = true ∧
    ¬ closest_target_sat agX tgX acX 10 := by
  refine ⟨by decide, by decide, by decide, by decide, ?_⟩
  intro h
  have h2 := (closest_target_sat_iff (by decide : Shaped agX tgX acX)).mp h
  exact absurd h2.2 (by decide)

/-- Claim C3 as amended: on a well-shaped trace, closest_target completes
and is satisfiable exactly when the trace meets the World Model
constraints and every chosen slot is signed-delta closest at its
pursuit-start timestep: 0 for the first change event and the previous
event's effective timestep for later ones. -/
theorem c3_choice_time :
    ∀ (ag : List (Int × Int)) (tg : List (List (Int × Int))) (ac : List Nat)
      (N : Int), Shaped ag tg ac →
      (closest_target_ok ag tg ac = true ∧
       (closest_target_sat ag tg ac N ↔
        (init_environment ac.length N (traceAssign ag tg ac) ∧
         chosenOrderingOK ag tg ac))) := by
  intro ag tg ac N hS
  refine ⟨shaped_closest_ok hS, ?_⟩
  rw [closest_target_sat_iff hS, closestHold_iff]

/-- Witness for the amended claim C3: a capture trace whose chosen slot is
closest at the pursuit-start time is satisfiable. -/
theorem c3_choice_time_witness : closest_target_sat agY tgY acY 10 :=
  ((c3_choice_time agY tgY acY 10 (by decide)).2).mpr ⟨by decide, by decide⟩

/-- Claim C4 counterexample: a call whose agent trace is shorter than its
action trace and whose goal arity is 4 completes without any shape error
(the binding loop silently binds only the prefix it visits and the first
three goal slots). -/
theorem c4_counterexample :
    check_run_ok agZ tgZ acZ = true ∧ agZ.length ≠ acZ.length ∧
    (tgZ.getD 0 []).length ≠ 3 := by
  decide

/-- Claim C4 as amended: check_run performs no shape validation at all; it
completes exactly when the agent trace is no longer than the action and
goal traces and every visited step carries at least 3 goal slots, and in
the other cases it fails with an uncaught IndexError, never a dedicated
shape error. -/
theorem c4_shape_behavior :
    ∀ (ag : List (Int × Int)) (tg : List (List (Int × Int))) (ac : List Nat),
      (check_run_ok ag tg ac = true ↔
        (ag.length ≤ ac.length ∧ ag.length ≤ tg.length ∧
         ∀ t, t < ag.length → 3 ≤ (tg.getD t []).length)) := by
  intro ag tg ac
  unfold check_run_ok bind_ok
  rw [decide_eq_true_iff]
  constructor
  · intro h
    refine ⟨?_, ?_, fun t ht => (h t ht).2.2⟩
    · by_cases hz : ag.length = 0
      · omega
      · have := (h (ag.length - 1) (by omega)).1
        omega
    · by_cases hz : ag.length = 0
      · omega
      · have := (h (ag.length - 1) (by omega)).2.1
        omega
  · rintro ⟨h1, h2, h3⟩ t ht
    exact ⟨by omega, by omega, h3 t ht⟩

/-- Witness for the amended claim C4 at a concrete mismatched input. -/
theorem c4_shape_behavior_witness : check_run_ok agW4 tgW4 acW4 = true :=
  (c4_shape_behavior agW4 tgW4 acW4).mpr ⟨by decide, by decide, by decide⟩

/-- Claim C5: on a well-shaped trace consistent with the World Model,
find_loop completes and is satisfiable exactly when no step of the trace
is an immediate reversal (north-south, south-north, west-east or
east-west) free of a capture at the middle position; in particular it is
unsatisfiable exactly when some capture-free reversal exists. -/
theorem c5_loop_check :
    ∀ (ag : List (Int × Int)) (tg : List (List (Int × Int))) (ac : List Nat)
      (N : Int), Shaped ag tg ac →
      init_environment ac.length N (traceAssign ag tg ac) →
      (find_loop_ok ag tg ac = true ∧
       (find_loop_sat ag tg ac N ↔ ¬ hasCaptureFreeReversal ag tg ac)) := by
  intro ag tg ac N hS he
  refine ⟨shaped_bind_ok hS, ?_⟩
  rw [find_loop_sat_iff hS]
  constructor
  · rintro ⟨_, h2⟩
    exact loopHold_iff.mp h2
  · intro h
    exact ⟨he, loopHold_iff.mpr h⟩

/-- Witness for claim C5: a capture-free north-then-south reversal makes
find_loop unsatisfiable, and the same trace without the reversal is
satisfiable. -/
theorem c5_loop_check_witness :
    (¬ find_loop_sat ag5 tg5 ac5 10) ∧ find_loop_sat ag5b tg5 ac5b 10 := by
  constructor
  · intro h
    exact ((c5_loop_check ag5 tg5 ac5 10 (by decide) (by decide)).2.mp h)
      (by decide)
  · exact (c5_loop_check ag5b tg5 ac5b 10 (by decide) (by decide)).2.mpr
      (by decide)

/-- Claim C6: on a well-shaped trace whose change events have pairwise
distinct effective timesteps, a recorded move at a timestep t with active
pursuit target g that works against g on some axis (south while g is not
strictly below, north while not strictly above, east while not strictly
right, west while not strictly left — covering the axis-aligned case where
only the single correct move stays permitted) makes find_efficient_path
complete and unsatisfiable. -/
theorem c6_bad_move_unsat :
    ∀ (ag : List (Int × Int)) (tg : List (List (Int × Int))) (ac : List Nat)
      (N : Int) (t g : Nat), Shaped ag tg ac →
      strictArrs (events tg ac.length) = true →
      activeIn (events tg ac.length) t = some g →
      violatesAt ag tg ac t g →
      (find_efficient_path_ok ag tg ac = true ∧
       ¬ find_efficient_path_sat ag tg ac N) := by
  intro ag tg ac N t g hS hst hact hviol
  have hne : events tg ac.length ≠ [] := by
    intro hnil
    rw [hnil] at hact
    exact absurd hact (by simp [activeIn])
  refine ⟨shaped_eff_ok hS hne, ?_⟩
  intro hsat
  obtain ⟨_, hextra⟩ := (find_efficient_path_sat_iff hS).mp hsat
  have hlt := activeIn_lt_arrLast hst hact
  have hmem := (effPairs_mem_iff hst t g).mpr ⟨hlt, hact⟩
  have hd := hextra (t, g) hmem
  exact absurd hviol ((dirOK_iff t g).mp hd)

/-- Witness for claim C6: moving south at step 0 while the active target
sits strictly above makes the check unsatisfiable. -/
theorem c6_bad_move_unsat_witness : ¬ find_efficient_path_sat ag6 tg6 ac6 10 :=
  (c6_bad_move_unsat ag6 tg6 ac6 10 0 1 (by decide) (by decide) (by decide)
    (by decide)).2

/-- Claim C7 counterexample: a satisfying assignment of the World Model
constraints (horizon 2, grid 10) whose south boolean is true at step 0
while the agent's row decreases by 1, against the claim that a true south
boolean forces the row to increase by 1 (north, also true here, takes
precedence in the encoded if-then-else). -/
theorem c7_counterexample :
    init_environment 2 10 aC7 ∧ aC7.south 0 = true ∧
    ¬(aC7.arow 1 = aC7.arow 0 + 1) := by
  decide

/-- Claim C7 as amended: in every satisfying assignment the row decreases
by 1 under a true north boolean, increases by 1 under south only when
north is false, and is unchanged when both are false; symmetrically the
column follows east, then west, with east taking precedence. -/
theorem c7_movement :
    ∀ (T : Nat) (N : Int) (a : WMAssign), init_environment T N a →
      ∀ t, t < T - 1 →
        ((a.north t = true → a.arow (t+1) = a.arow t - 1) ∧
         (a.north t = false → a.south t = true → a.arow (t+1) = a.arow t + 1) ∧
         (a.north t = false → a.south t = false → a.arow (t+1) = a.arow t) ∧
         (a.east t = true → a.acol (t+1) = a.acol t + 1) ∧
         (a.east t = false → a.west t = true → a.acol (t+1) = a.acol t - 1) ∧
         (a.east t = false → a.west t = false → a.acol (t+1) = a.acol t)) := by
  intro T N a he t ht
  obtain ⟨hrow, hcol⟩ := he.2.2.2.2 t ht
  refine ⟨?_, ?_, ?_, ?_, ?_, ?_⟩
  · intro h
    rw [hrow, if_pos h]
    omega
  · intro hn hs
    rw [hrow, if_neg (by simp [hn]), if_pos hs]
  · intro hn hs
    rw [hrow, if_neg (by simp [hn]), if_neg (by simp [hs])]
    omega
  · intro h
    rw [hcol, if_pos h]
  · intro he2 hw
    rw [hcol, if_neg (by simp [he2]), if_pos hw]
    omega
  · intro he2 hw
    rw [hcol, if_neg (by simp [he2]), if_neg (by simp [hw])]
    omega

/-- Witness for the amended claim C7 at the concrete assignment aC7. -/
theorem c7_movement_witness : aC7.arow 1 = aC7.arow 0 - 1 :=
  (c7_movement 2 10 aC7 (by decide) 0 (by decide)).1 (by decide)

/-- Claim C8: on a well-shaped trace with some agent or goal coordinate
outside the grid interval at some timestep, check_run completes and is
unsatisfiable. -/
theorem c8_oob_unsat :
    ∀ (ag : List (Int × Int)) (tg : List (List (Int × Int))) (ac : List Nat)
      (N : Int), Shaped ag tg ac → (∃ t, t < ac.length ∧ OOBAt ag tg N t) →
      (check_run_ok ag tg ac = true ∧ ¬ check_run_sat ag tg ac N) := by
  intro ag tg ac N hS hoob
  refine ⟨shaped_bind_ok hS, ?_⟩
  rintro ⟨a, he, hb⟩
  obtain ⟨t, ht, hoo⟩ := hoob
  obtain ⟨h1, h2, h3, _, _, _, _⟩ := hb t (by rw [hS.1]; exact ht)
  obtain ⟨hbt, hba1, hba2, hba3, hba4⟩ := he.1 t ht
  rcases hoo with ho | ho | ⟨i, hi, ho⟩
  · exact ho ⟨h1 ▸ hba2, h1 ▸ hba1⟩
  · exact ho ⟨h2 ▸ hba4, h2 ▸ hba3⟩
  · obtain ⟨htr, htc⟩ := h3 i hi
    obtain ⟨hb1, hb2, hb3, hb4⟩ := hbt i hi
    rcases ho with ho | ho
    · exact ho ⟨htr ▸ hb2, htr ▸ hb1⟩
    · exact ho ⟨htc ▸ hb4, htc ▸ hb3⟩

/-- Witness for claim C8: an agent row of 10 on a grid of size 10 makes
check_run unsatisfiable. -/
theorem c8_oob_unsat_witness : ¬ check_run_sat ag8 tg8 ac8 10 :=
  (c8_oob_unsat ag8 tg8 ac8 10 (by decide) ⟨0, by decide, by decide⟩).2

/-- Claim C9: on any non-empty trace in which no goal slot ever changes
position, find_efficient_path does not complete: its event list is empty
and the unconditional read of its first element raises an uncaught
IndexError instead of returning a ternary result. -/
theorem c9_no_capture_crash :
    ∀ (ag : List (Int × Int)) (tg : List (List (Int × Int))) (ac : List Nat),
      0 < ac.length →
      (∀ t, t < ac.length - 1 → ∀ i, i < 3 → changedAt tg i t = false) →
      find_efficient_path_ok ag tg ac = false := by
  intro ag tg ac hne hnc
  unfold find_efficient_path_ok
  rw [show events tg ac.length = [] from eventsUpTo_nil hnc]
  simp

/-- Witness for claim C9 at a concrete capture-free trace. -/
theorem c9_no_capture_crash_witness :
    find_efficient_path_ok ag9 tg9 ac9 = false :=
  c9_no_capture_crash ag9 tg9 ac9 (by decide) (by decide)

/-- Claim C10: on a well-shaped, World-Model-consistent trace with at
least one change event, pairwise distinct effective timesteps, and no
move working against its active target at any timestep strictly before
the last change's effective timestep, find_efficient_path completes and
is satisfiable — moves at or after the final capture are never
constrained. -/
theorem c10_tail_unconstrained :
    ∀ (ag : List (Int × Int)) (tg : List (List (Int × Int))) (ac : List Nat)
      (N : Int), Shaped ag tg ac →
      events tg ac.length ≠ [] →
      strictArrs (events tg ac.length) = true →
      init_environment ac.length N (traceAssign ag tg ac) →
      (∀ t, t < arrLast (events tg ac.length) → ∀ g, g < 3 →
        activeIn (events tg ac.length) t = some g →
        ¬ violatesAt ag tg ac t g) →
      (find_efficient_path_ok ag tg ac = true ∧
       find_efficient_path_sat ag tg ac N) := by
  intro ag tg ac N hS hne hst he hgood
  refine ⟨shaped_eff_ok hS hne, ?_⟩
  rw [find_efficient_path_sat_iff hS]
  refine ⟨he, ?_⟩
  intro p hp
  obtain ⟨h1, h2⟩ := (effPairs_mem_iff hst p.1 p.2).mp hp
  have hg3 : p.2 < 3 := by
    obtain ⟨e, hmem, hg⟩ := activeIn_slot h2
    have := events_mem hmem
    omega
  exact (dirOK_iff p.1 p.2).mpr (hgood p.1 h1 p.2 hg3 h2)

/-- Witness for claim C10: after its only capture the agent keeps moving
east, away from every goal, and the check is still satisfiable. -/
theorem c10_tail_unconstrained_witness :
    violatesAt ag10 tg10 ac10 1 0 ∧ find_efficient_path_sat ag10 tg10 ac10 10 :=
  ⟨by decide, (c10_tail_unconstrained ag10 tg10 ac10 10 (by decide) (by decide)
    (by decide) (by decide) (by decide)).2⟩
